import Mathlib

/-!
Verification of the bbloom Bloom filter against its specification.

The repository exposes a C API (src/src/c_api/include/bloom.h) with four
functions: bb_bloom_filter_from_fpp, bb_bloom_filter_insert,
bb_bloom_filter_contains, bb_bloom_filter_free.  The implementation behind
those declarations is not part of the source tree, so the core is modelled
here from the specification (parameter calculator, bit array, double-hashing
index generator, filter facade).
-/

/-- Modelled from the spec: the error taxonomy of section 7 (the
implementation behind bloom.h is missing).  InvalidParameter for bad
construction inputs, InvalidArgument for a null key, OutOfMemory for
allocation failure. -/
inductive BloomError where
  | InvalidParameter
  | InvalidArgument
  | OutOfMemory

/-- The 64-bit FNV prime. -/
def fnvPrime : Nat := 1099511628211

/-- Modelled from the spec: a fixed deterministic 64-bit FNV-1a style hash
of a byte sequence (the spec leaves the concrete hash an implementation
choice; the implementation is missing from the source tree).  Arithmetic is
over Nat with explicit reduction mod 2^64. -/
def fnv64 (seed : Nat) (key : List Nat) : Nat :=
  key.foldl (fun h b => ((h ^^^ (b % 256)) * fnvPrime) % (2 ^ 64)) (seed % (2 ^ 64))

/-- Modelled from the spec: the first base hash value h1 of a key. -/
def hash1 (key : List Nat) : Nat := fnv64 14695981039346656037 key

/-- Modelled from the spec: the second, independently seeded base hash
value h2 of a key. -/
def hash2 (key : List Nat) : Nat := fnv64 5381 key

/-- Modelled from the spec: the hash index generator (section 4.3).  Given
the filter parameters (bit_count = m, hash_count = k) and a key, the i-th
index is (h1 + i * h2) mod m for i in [0, k). -/
def bloomIndices (m k : Nat) (key : List Nat) : List Nat :=
  (List.range k).map (fun i => (hash1 key + i * hash2 key) % m)

/-- Modelled from the spec: test-bit of the bit array (section 4.2). -/
def testBit (bits : List Bool) (i : Nat) : Bool := bits.getD i false

/-- Modelled from the spec: set-bit of the bit array (section 4.2). -/
def setBit (bits : List Bool) (i : Nat) : List Bool := bits.set i true

/-- Modelled from the spec: the Filter entity of section 3 (the struct
BloomFilter behind the opaque handle of bloom.h). -/
structure BloomFilter where
  bit_count : Nat
  hash_count : Nat
  bits : List Bool

/-- Well-formedness of a live filter: the bit storage has exactly
bit_count bits and bit_count is positive (section 3 invariants). -/
def WF (F : BloomFilter) : Prop := F.bits.length = F.bit_count ∧ 0 < F.bit_count

/-- Modelled from the spec: Contains (section 4.4) — true iff every
targeted bit is 1. -/
def BloomFilter.contains (F : BloomFilter) (key : List Nat) : Bool :=
  (bloomIndices F.bit_count F.hash_count key).all (fun i => testBit F.bits i)

/-- Modelled from the spec: Insert (section 4.4) — sets each targeted bit
and returns whether every targeted bit was already 1 before the call. -/
def BloomFilter.insert (F : BloomFilter) (key : List Nat) : BloomFilter × Bool :=
  let idxs := bloomIndices F.bit_count F.hash_count key
  (⟨F.bit_count, F.hash_count, idxs.foldl setBit F.bits⟩,
   idxs.all (fun i => testBit F.bits i))

/-- A sequence of inserts, keeping only the filter state. -/
def runInserts (F : BloomFilter) (keys : List (List Nat)) : BloomFilter :=
  keys.foldl (fun G x => (G.insert x).1) F

/-- Modelled from the spec: a freshly allocated filter — every bit
initialized to 0 (section 3). -/
def emptyFilter (m k : Nat) : BloomFilter := ⟨m, k, List.replicate m false⟩

/-- The byte sequence a C callee reads from a NUL-terminated const char *
argument: the bytes strictly before the first zero byte. -/
def cStringKey (s : List Nat) : List Nat := s.takeWhile (fun b => b ≠ 0)

/-- Modelled from the spec: the insert entry point of bloom.h.  A null key
(none) fails with InvalidArgument (sections 4.4 and 7); a non-null key is
read as a NUL-terminated C string. -/
def bb_bloom_filter_insert (F : BloomFilter) (key : Option (List Nat)) :
    Except BloomError (BloomFilter × Bool) :=
  match key with
  | none => .error .InvalidArgument
  | some s => .ok (F.insert (cStringKey s))

/-- Modelled from the spec: the contains entry point of bloom.h.  A null
key (none) fails with InvalidArgument; a non-null key is read as a
NUL-terminated C string. -/
def bb_bloom_filter_contains (F : BloomFilter) (key : Option (List Nat)) :
    Except BloomError Bool :=
  match key with
  | none => .error .InvalidArgument
  | some s => .ok (F.contains (cStringKey s))

/-- Modelled from the spec: the parameter calculator's bit count
(section 4.1): ceil(-(n * ln p) / (ln 2)^2). -/
noncomputable def bitCount (p : ℝ) (n : ℕ) : ℤ :=
  ⌈(-((n : ℝ) * Real.log p)) / (Real.log 2) ^ 2⌉

/-- Modelled from the spec: the parameter calculator's hash count
(section 4.1): round((bit_count / n) * ln 2), clamped to a minimum of 1. -/
noncomputable def hashCount (p : ℝ) (n : ℕ) : ℤ :=
  max 1 (round (((bitCount p n : ℝ) / (n : ℝ)) * Real.log 2))

open scoped Classical in
/-- Modelled from the spec: the construction entry point of bloom.h.
Fails with InvalidParameter if p <= 0, p >= 1 or n = 0; otherwise returns
a zero-initialized filter sized by the parameter calculator. -/
noncomputable def bb_bloom_filter_from_fpp (p : ℝ) (n : ℕ) :
    Except BloomError BloomFilter :=
  if p ≤ 0 ∨ 1 ≤ p ∨ n = 0 then .error .InvalidParameter
  else .ok (emptyFilter (bitCount p n).toNat (hashCount p n).toNat)

/-! ## Bit array lemmas -/

theorem testBit_setBit_self : ∀ (l : List Bool) (i : Nat), i < l.length →
    testBit (setBit l i) i = true := by
  intro l
  induction l with
  | nil => intro i h; simp at h
  | cons a t ih =>
    intro i h
    cases i with
    | zero => simp [testBit, setBit]
    | succ j =>
      simp only [setBit, List.set_cons_succ, testBit, List.getD_cons_succ]
      exact ih j (by simpa using h)

theorem testBit_setBit_mono : ∀ (l : List Bool) (i j : Nat),
    testBit l j = true → testBit (setBit l i) j = true := by
  intro l
  induction l with
  | nil => intro i j h; simp [testBit] at h
  | cons a t ih =>
    intro i j h
    cases i with
    | zero =>
      cases j with
      | zero => simp [testBit, setBit]
      | succ j' => simpa [testBit, setBit] using h
    | succ i' =>
      cases j with
      | zero => simpa [testBit, setBit] using h
      | succ j' =>
        simp only [setBit, List.set_cons_succ, testBit, List.getD_cons_succ] at h ⊢
        exact ih i' j' h

theorem length_setBit (l : List Bool) (i : Nat) :
    (setBit l i).length = l.length := by
  simp [setBit]

theorem foldl_setBit_length : ∀ (idxs : List Nat) (l : List Bool),
    (idxs.foldl setBit l).length = l.length := by
  intro idxs
  induction idxs with
  | nil => intro l; rfl
  | cons i t ih =>
    intro l
    simp only [List.foldl_cons]
    rw [ih, length_setBit]

theorem foldl_setBit_mono : ∀ (idxs : List Nat) (l : List Bool) (j : Nat),
    testBit l j = true → testBit (idxs.foldl setBit l) j = true := by
  intro idxs
  induction idxs with
  | nil => intro l j h; exact h
  | cons i t ih =>
    intro l j h
    exact ih (setBit l i) j (testBit_setBit_mono l i j h)

theorem foldl_setBit_mem : ∀ (idxs : List Nat) (l : List Bool) (i : Nat),
    i ∈ idxs → i < l.length → testBit (idxs.foldl setBit l) i = true := by
  intro idxs
  induction idxs with
  | nil => intro l i h; simp at h
  | cons a t ih =>
    intro l i hmem hlt
    rcases List.mem_cons.mp hmem with h | h
    · subst h
      exact foldl_setBit_mono t (setBit l i) i (testBit_setBit_self l i hlt)
    · exact ih (setBit l a) i h (by rwa [length_setBit])

theorem mem_bloomIndices_lt {m k : Nat} (hm : 0 < m) (key : List Nat) :
    ∀ i ∈ bloomIndices m k key, i < m := by
  intro i hi
  simp only [bloomIndices, List.mem_map] at hi
  obtain ⟨j, _, rfl⟩ := hi
  exact Nat.mod_lt _ hm

theorem testBit_replicate_false : ∀ (m j : Nat),
    testBit (List.replicate m false) j = false := by
  intro m
  induction m with
  | zero => intro j; rfl
  | succ m' ih =>
    intro j
    cases j with
    | zero => rfl
    | succ j' =>
      simp only [List.replicate, testBit, List.getD_cons_succ]
      exact ih j'

/-! ## Filter lemmas -/

theorem contains_insert_mono (F : BloomFilter) (x y : List Nat)
    (h : F.contains x = true) : ((F.insert y).1).contains x = true := by
  have hall := List.all_eq_true.mp h
  apply List.all_eq_true.mpr
  intro i hi
  exact foldl_setBit_mono _ _ _ (hall i hi)

theorem contains_runInserts_mono (keys : List (List Nat)) :
    ∀ (F : BloomFilter) (x : List Nat), F.contains x = true →
      (runInserts F keys).contains x = true := by
  induction keys with
  | nil => intro F x h; exact h
  | cons y t ih =>
    intro F x h
    exact ih (F.insert y).1 x (contains_insert_mono F x y h)

theorem contains_insert_self (F : BloomFilter) (x : List Nat) (hF : WF F) :
    ((F.insert x).1).contains x = true := by
  apply List.all_eq_true.mpr
  intro i hi
  apply foldl_setBit_mem _ _ _ hi
  rw [hF.1]
  exact mem_bloomIndices_lt hF.2 x i hi

theorem contains_emptyFilter_false (m k : Nat) (hk : 1 ≤ k) (key : List Nat) :
    (emptyFilter m k).contains key = false := by
  cases hco : (emptyFilter m k).contains key with
  | false => rfl
  | true =>
    exfalso
    have hall := List.all_eq_true.mp hco
    have hmem : (hash1 key + 0 * hash2 key) % m ∈ bloomIndices m k key := by
      simp only [bloomIndices, List.mem_map]
      exact ⟨0, List.mem_range.mpr hk, rfl⟩
    have hbit : testBit (List.replicate m false) ((hash1 key + 0 * hash2 key) % m) = true :=
      hall _ hmem
    rw [testBit_replicate_false] at hbit
    exact Bool.false_ne_true hbit

/-! ## Parameter calculator lemmas -/

theorem one_le_bitCount {p : ℝ} {n : ℕ} (hp : 0 < p) (hp1 : p < 1) (hn : 1 ≤ n) :
    1 ≤ bitCount p n := by
  have hlog : Real.log p < 0 := Real.log_neg hp hp1
  have hnpos : (0 : ℝ) < n := by exact_mod_cast hn
  have hnum : 0 < -((n : ℝ) * Real.log p) := by nlinarith
  have hden : 0 < (Real.log 2) ^ 2 := pow_pos (Real.log_pos one_lt_two) 2
  have hpos : 0 < (-((n : ℝ) * Real.log p)) / (Real.log 2) ^ 2 := div_pos hnum hden
  have h0 : 0 < bitCount p n := Int.ceil_pos.mpr hpos
  omega

theorem one_le_hashCount (p : ℝ) (n : ℕ) : 1 ≤ hashCount p n :=
  le_max_left _ _

theorem one_le_hashCount_toNat (p : ℝ) (n : ℕ) : 1 ≤ (hashCount p n).toNat := by
  have h := one_le_hashCount p n
  omega

theorem from_fpp_ok {p : ℝ} {n : ℕ} (hp : 0 < p) (hp1 : p < 1) (hn : 1 ≤ n) :
    bb_bloom_filter_from_fpp p n =
      .ok (emptyFilter (bitCount p n).toNat (hashCount p n).toNat) := by
  have hcond : ¬(p ≤ 0 ∨ 1 ≤ p ∨ n = 0) := by
    push_neg
    exact ⟨hp, hp1, by omega⟩
  simp only [bb_bloom_filter_from_fpp, if_neg hcond]

/-! ## Claims -/

/-- C1: No false negatives — for every key x and well-formed filter F, once
insert(x) has run, contains(x) returns true after any further sequence of
inserts of arbitrary other keys. -/
theorem no_false_negatives (F : BloomFilter) (x : List Nat)
    (keys : List (List Nat)) (hF : WF F) :
    (runInserts ((F.insert x).1) keys).contains x = true :=
  contains_runInserts_mono keys (F.insert x).1 x (contains_insert_self F x hF)

theorem no_false_negatives_witness :
    WF (emptyFilter 8 2) ∧
    (runInserts (((emptyFilter 8 2).insert [3]).1) [[5], [9]]).contains [3] = true := by
  have hF : WF (emptyFilter 8 2) := ⟨by decide, by decide⟩
  exact ⟨hF, no_false_negatives (emptyFilter 8 2) [3] [[5], [9]] hF⟩

/-- C2: Monotonicity — a bit that is 1 stays 1 across any sequence of
inserts; no operation resets a bit to 0. -/
theorem bits_monotone (F : BloomFilter) (keys : List (List Nat)) (j : Nat)
    (h : testBit F.bits j = true) :
    testBit (runInserts F keys).bits j = true := by
  induction keys generalizing F with
  | nil => exact h
  | cons y t ih => exact ih (F.insert y).1 (foldl_setBit_mono _ _ _ h)

theorem bits_monotone_witness :
    testBit (BloomFilter.mk 4 2 [true, false, false, false]).bits 0 = true ∧
    testBit (runInserts (BloomFilter.mk 4 2 [true, false, false, false]) [[7]]).bits 0 = true :=
  ⟨rfl, bits_monotone (BloomFilter.mk 4 2 [true, false, false, false]) [[7]] 0 rfl⟩

/-- C3: Determinism — byte-for-byte equal keys on the same filter yield the
identical index sequence, and contains gives the same boolean on both. -/
theorem hash_determinism (F : BloomFilter) (x y : List Nat) (h : x = y) :
    bloomIndices F.bit_count F.hash_count x = bloomIndices F.bit_count F.hash_count y ∧
    F.contains x = F.contains y := by
  subst h
  exact ⟨rfl, rfl⟩

theorem hash_determinism_witness :
    ([7, 7] : List Nat) = [7, 7] ∧
    (bloomIndices (emptyFilter 4 2).bit_count (emptyFilter 4 2).hash_count [7, 7] =
      bloomIndices (emptyFilter 4 2).bit_count (emptyFilter 4 2).hash_count [7, 7] ∧
     (emptyFilter 4 2).contains [7, 7] = (emptyFilter 4 2).contains [7, 7]) :=
  ⟨rfl, hash_determinism (emptyFilter 4 2) [7, 7] [7, 7] rfl⟩

/-- C4: The hash index generator produces exactly hash_count indices, the
i-th being (h1 + i * h2) mod bit_count, and each lies in [0, bit_count). -/
theorem bloomIndices_spec (m k : Nat) (key : List Nat) (hm : 0 < m) :
    (bloomIndices m k key).length = k ∧
    (∀ i, i < k → (bloomIndices m k key).getD i 0 = (hash1 key + i * hash2 key) % m) ∧
    (∀ j ∈ bloomIndices m k key, j < m) := by
  refine ⟨by simp [bloomIndices], ?_, mem_bloomIndices_lt hm key⟩
  intro i hi
  rw [List.getD_eq_getElem?_getD]
  simp [bloomIndices, hi]

theorem bloomIndices_spec_witness :
    0 < 5 ∧
    ((bloomIndices 5 3 [1, 2]).length = 3 ∧
     (∀ i, i < 3 → (bloomIndices 5 3 [1, 2]).getD i 0 = (hash1 [1, 2] + i * hash2 [1, 2]) % 5) ∧
     (∀ j ∈ bloomIndices 5 3 [1, 2], j < 5)) :=
  ⟨by decide, bloomIndices_spec 5 3 [1, 2] (by decide)⟩

/-- C5: Construction derives bit_count = ceil(-(n ln p) / (ln 2)^2) and
hash_count = round((bit_count / n) ln 2) clamped to a minimum of 1, and for
p in (0,1) and n >= 1 both results are at least 1. -/
theorem parameter_calculator_spec (p : ℝ) (n : ℕ)
    (hp : 0 < p) (hp1 : p < 1) (hn : 1 ≤ n) :
    bb_bloom_filter_from_fpp p n =
      .ok (emptyFilter (bitCount p n).toNat (hashCount p n).toNat) ∧
    bitCount p n = ⌈(-((n : ℝ) * Real.log p)) / (Real.log 2) ^ 2⌉ ∧
    hashCount p n = max 1 (round (((bitCount p n : ℝ) / (n : ℝ)) * Real.log 2)) ∧
    1 ≤ bitCount p n ∧ 1 ≤ hashCount p n :=
  ⟨from_fpp_ok hp hp1 hn, rfl, rfl, one_le_bitCount hp hp1 hn, one_le_hashCount p n⟩

theorem parameter_calculator_spec_witness :
    (0 : ℝ) < 1 / 2 ∧ (1 : ℝ) / 2 < 1 ∧ 1 ≤ 1 ∧
    (1 ≤ bitCount (1 / 2) 1 ∧ 1 ≤ hashCount (1 / 2) 1) := by
  have h := parameter_calculator_spec (1 / 2) 1 (by norm_num) (by norm_num) le_rfl
  exact ⟨by norm_num, by norm_num, le_rfl, h.2.2.2⟩

/-- C6: Construction fails with InvalidParameter exactly when p <= 0,
p >= 1 or n = 0 — in particular at p = 0, p = 1, p = -0.1 and n = 0 — and
succeeds for p = 0.01, n = 1000. -/
theorem from_fpp_validation :
    (∀ (p : ℝ) (n : ℕ),
      bb_bloom_filter_from_fpp p n = .error .InvalidParameter ↔
        (p ≤ 0 ∨ 1 ≤ p ∨ n = 0)) ∧
    bb_bloom_filter_from_fpp 0 1000 = .error .InvalidParameter ∧
    bb_bloom_filter_from_fpp 1 1000 = .error .InvalidParameter ∧
    bb_bloom_filter_from_fpp (-(1 / 10)) 1000 = .error .InvalidParameter ∧
    bb_bloom_filter_from_fpp (1 / 100) 0 = .error .InvalidParameter ∧
    bb_bloom_filter_from_fpp (1 / 100) 1000 =
      .ok (emptyFilter (bitCount (1 / 100) 1000).toNat (hashCount (1 / 100) 1000).toNat) := by
  have key : ∀ (p : ℝ) (n : ℕ),
      bb_bloom_filter_from_fpp p n = .error .InvalidParameter ↔
        (p ≤ 0 ∨ 1 ≤ p ∨ n = 0) := by
    intro p n
    by_cases h : p ≤ 0 ∨ 1 ≤ p ∨ n = 0
    · simp only [bb_bloom_filter_from_fpp, if_pos h]
      exact ⟨fun _ => h, fun _ => trivial⟩
    · simp only [bb_bloom_filter_from_fpp, if_neg h]
      constructor
      · intro hcontra
        exact absurd hcontra (by simp)
      · intro hc
        exact absurd hc h
  refine ⟨key, ?_, ?_, ?_, ?_, ?_⟩
  · exact (key 0 1000).mpr (Or.inl le_rfl)
  · exact (key 1 1000).mpr (Or.inr (Or.inl le_rfl))
  · exact (key (-(1 / 10)) 1000).mpr (Or.inl (by norm_num))
  · exact (key (1 / 100) 0).mpr (Or.inr (Or.inr rfl))
  · exact from_fpp_ok (by norm_num) (by norm_num) (by norm_num)

theorem from_fpp_validation_witness :
    bb_bloom_filter_from_fpp 0 1000 = .error .InvalidParameter ∧
    bb_bloom_filter_from_fpp (1 / 100) 1000 =
      .ok (emptyFilter (bitCount (1 / 100) 1000).toNat (hashCount (1 / 100) 1000).toNat) :=
  ⟨from_fpp_validation.2.1, from_fpp_validation.2.2.2.2.2⟩

/-- C7: On a well-formed filter, insert sets every targeted bit and returns
true exactly when every targeted bit was already 1 before the call. -/
theorem insert_return_spec (F : BloomFilter) (key : List Nat) (hF : WF F) :
    ((F.insert key).2 = true ↔
      ∀ j ∈ bloomIndices F.bit_count F.hash_count key, testBit F.bits j = true) ∧
    (∀ j ∈ bloomIndices F.bit_count F.hash_count key,
      testBit ((F.insert key).1).bits j = true) := by
  constructor
  · exact List.all_eq_true
  · intro j hj
    apply foldl_setBit_mem _ _ _ hj
    rw [hF.1]
    exact mem_bloomIndices_lt hF.2 key j hj

theorem insert_return_spec_witness :
    WF (emptyFilter 4 1) ∧
    ((((emptyFilter 4 1).insert [2]).2 = true ↔
      ∀ j ∈ bloomIndices (emptyFilter 4 1).bit_count (emptyFilter 4 1).hash_count [2],
        testBit (emptyFilter 4 1).bits j = true) ∧
     (∀ j ∈ bloomIndices (emptyFilter 4 1).bit_count (emptyFilter 4 1).hash_count [2],
       testBit (((emptyFilter 4 1).insert [2]).1).bits j = true)) := by
  have hF : WF (emptyFilter 4 1) := ⟨by decide, by decide⟩
  exact ⟨hF, insert_return_spec (emptyFilter 4 1) [2] hF⟩

/-- C8: A failing insert or contains call (null key) surfaces an error
value distinct from every valid boolean membership result. -/
theorem error_distinguishable (F : BloomFilter) :
    bb_bloom_filter_insert F none = .error .InvalidArgument ∧
    bb_bloom_filter_contains F none = .error .InvalidArgument ∧
    (∀ r : BloomFilter × Bool, bb_bloom_filter_insert F none ≠ .ok r) ∧
    (∀ b : Bool, bb_bloom_filter_contains F none ≠ .ok b) := by
  refine ⟨rfl, rfl, ?_, ?_⟩
  · intro r h
    simp [bb_bloom_filter_insert] at h
  · intro b h
    simp [bb_bloom_filter_contains] at h

theorem error_distinguishable_witness :
    bb_bloom_filter_insert (emptyFilter 4 1) none = .error .InvalidArgument ∧
    bb_bloom_filter_contains (emptyFilter 4 1) none = .error .InvalidArgument ∧
    (∀ r : BloomFilter × Bool, bb_bloom_filter_insert (emptyFilter 4 1) none ≠ .ok r) ∧
    (∀ b : Bool, bb_bloom_filter_contains (emptyFilter 4 1) none ≠ .ok b) :=
  error_distinguishable (emptyFilter 4 1)

/-- C9: For valid construction inputs the returned filter has every bit 0,
so contains returns false for every key queried before any insert. -/
theorem empty_filter_contains_false (p : ℝ) (n : ℕ) (key : List Nat)
    (hp : 0 < p) (hp1 : p < 1) (hn : 1 ≤ n) :
    ∃ F, bb_bloom_filter_from_fpp p n = .ok F ∧
      F.bits = List.replicate F.bit_count false ∧
      (∀ j, testBit F.bits j = false) ∧
      F.contains key = false := by
  refine ⟨emptyFilter (bitCount p n).toNat (hashCount p n).toNat,
    from_fpp_ok hp hp1 hn, rfl, fun j => testBit_replicate_false _ j, ?_⟩
  exact contains_emptyFilter_false _ _ (one_le_hashCount_toNat p n) key

theorem empty_filter_contains_false_witness :
    (0 : ℝ) < 1 / 100 ∧ (1 : ℝ) / 100 < 1 ∧ 1 ≤ 100 ∧
    ∃ F, bb_bloom_filter_from_fpp (1 / 100) 100 = .ok F ∧
      F.bits = List.replicate F.bit_count false ∧
      (∀ j, testBit F.bits j = false) ∧
      F.contains [1, 2, 3] = false :=
  ⟨by norm_num, by norm_num, by norm_num,
   empty_filter_contains_false (1 / 100) 100 [1, 2, 3]
     (by norm_num) (by norm_num) (by norm_num)⟩

/-- C10: At the C boundary keys are NUL-terminated strings: two key
arguments whose bytes agree before the first zero byte make insert and
contains behave identically. -/
theorem c_string_boundary (F : BloomFilter) (a b : List Nat)
    (h : a.takeWhile (fun x => x ≠ 0) = b.takeWhile (fun x => x ≠ 0)) :
    bb_bloom_filter_insert F (some a) = bb_bloom_filter_insert F (some b) ∧
    bb_bloom_filter_contains F (some a) = bb_bloom_filter_contains F (some b) := by
  have hk : cStringKey a = cStringKey b := h
  constructor
  · simp only [bb_bloom_filter_insert, hk]
  · simp only [bb_bloom_filter_contains, hk]

theorem c_string_boundary_witness :
    ([1, 2, 0, 3] : List Nat).takeWhile (fun x => x ≠ 0) =
      ([1, 2, 0, 4] : List Nat).takeWhile (fun x => x ≠ 0) ∧
    (bb_bloom_filter_insert (emptyFilter 4 1) (some [1, 2, 0, 3]) =
       bb_bloom_filter_insert (emptyFilter 4 1) (some [1, 2, 0, 4]) ∧
     bb_bloom_filter_contains (emptyFilter 4 1) (some [1, 2, 0, 3]) =
       bb_bloom_filter_contains (emptyFilter 4 1) (some [1, 2, 0, 4])) :=
  ⟨by decide, c_string_boundary (emptyFilter 4 1) [1, 2, 0, 3] [1, 2, 0, 4] (by decide)⟩
